import Mathlib

/-!
Verification of the xodium X11 client core (display-address parser,
Xauthority reader, SETUP request codec, framed transport) against its
natural-language specification.

Shallow embedding conventions: Rust byte buffers are `List Nat` (each
element a byte value), Rust strings are `List Char` when parsed as text
and `List Nat` when treated as raw UTF-8 bytes, `io::Result`/`Result`
become `Option`/`Except`, and the looping readers take an explicit fuel
argument (always instantiated with more fuel than the input length, so
the out-of-fuel branch is unreachable).
-/

/-! ## Xauthority reader (src/xauthority.rs, src/xauthority/connection_family.rs) -/

/-- The five known connection family codes (Xauth.h values). -/
inductive ConnectionFamily where
  | LocalHost
  | Krb5Principal
  | Netname
  | Local
  | Wild
  deriving DecidableEq

/-- `ConnectionFamily::try_from`: only 252, 253, 254, 256, 65535 resolve. -/
def ConnectionFamily.tryFrom (raw_family : Nat) : Option ConnectionFamily :=
  match raw_family with
  | 252 => some .LocalHost
  | 253 => some .Krb5Principal
  | 254 => some .Netname
  | 256 => some .Local
  | 65535 => some .Wild
  | _ => none

/-- `XAuthEntry`.  The Rust `String` fields (`display_name`,
`protocol_name`) are produced by `String::from_utf8_lossy`, a total
function on the raw bytes; the model keeps the raw bytes. -/
structure XAuthEntry where
  connection_family : ConnectionFamily
  display_name : List Nat
  display_number : Nat
  protocol_name : List Nat
  protocol_data : List Nat
  deriving DecidableEq

/-- `ParseError`: `Io` collapses the payload of `ParseError::Io(io::Error)`. -/
inductive ParseError where
  | Io
  | InvalidFile
  deriving DecidableEq

/-- `ReadBytesExt::read_u16_be`: `read_exact` on two bytes, big endian;
fewer than two bytes available is an `UnexpectedEof` error (`none`). -/
def readU16BE : List Nat → Option (Nat × List Nat)
  | b0 :: b1 :: rest => some (b0 * 256 + b1, rest)
  | _ => none

/-- `read_sized_string`: a big-endian u16 length `n`, then
`reader.take(n).read_to_end(..)`, which reads *up to* `n` bytes and does
not fail when fewer are available — hence `List.take`/`List.drop`. -/
def read_sized_string (l : List Nat) : Option (List Nat × List Nat) :=
  match readU16BE l with
  | none => none
  | some (n, rest) => some (rest.take n, rest.drop n)

/-- ASCII decimal digit value of a byte. -/
def byteDigit (b : Nat) : Option Nat :=
  if 48 ≤ b ∧ b ≤ 57 then some (b - 48) else none

/-- Accumulating decimal valuation of a byte string; `none` on the first
non-digit byte. -/
def digitsValBytes : List Nat → Nat → Option Nat
  | [], acc => some acc
  | b :: bs, acc =>
    match byteDigit b with
    | none => none
    | some d => digitsValBytes bs (10 * acc + d)

/-- Drop one leading ASCII `+` (byte 43), as Rust unsigned integer
parsing accepts an optional plus sign. -/
def stripPlusByte (s : List Nat) : List Nat :=
  match s with
  | b :: rest => if b = 43 then rest else s
  | [] => s

/-- `str::parse::<u16>` applied to the lossy UTF-8 decoding of the
bytes: an optional `+`, then a nonempty run of ASCII digits whose value
fits in 16 bits.  (Any byte outside the ASCII digit range — including
every byte of a multi-byte or invalid UTF-8 sequence, which lossy
decoding turns into non-digit characters — makes the parse fail, so
working on the raw bytes is equivalent.)  Checked u16 arithmetic
overflows during the fold exactly when the final value is ≥ 2^16, since
the accumulator is monotone. -/
def parseU16Bytes (s : List Nat) : Option Nat :=
  let t := stripPlusByte s
  if t = [] then none
  else
    match digitsValBytes t 0 with
    | none => none
    | some v => if v < 65536 then some v else none

/-- `read_entry`: family code (EOF there ends the stream: `ok none`),
then four sized strings (EOF inside their length prefix is an `Io`
error), then the display-number text must parse as u16. -/
def read_entry (l : List Nat) : Except ParseError (Option (XAuthEntry × List Nat)) :=
  match readU16BE l with
  | none => .ok none
  | some (raw_family, r0) =>
    match ConnectionFamily.tryFrom raw_family with
    | none => .error .InvalidFile
    | some connection_family =>
      match read_sized_string r0 with
      | none => .error .Io
      | some (raw_display_name, r1) =>
        match read_sized_string r1 with
        | none => .error .Io
        | some (raw_display_number, r2) =>
          match read_sized_string r2 with
          | none => .error .Io
          | some (raw_protocol_name, r3) =>
            match read_sized_string r3 with
            | none => .error .Io
            | some (protocol_data, r4) =>
              match parseU16Bytes raw_display_number with
              | none => .error .InvalidFile
              | some display_number =>
                .ok (some (⟨connection_family, raw_display_name, display_number,
                            raw_protocol_name, protocol_data⟩, r4))

/-- The `loop` of `from_reader`, with fuel (each iteration consumes
input, so `length + 1` fuel always suffices; the fuel-0 branch is
unreachable). -/
def from_reader_go : Nat → List Nat → Except ParseError (List XAuthEntry)
  | 0, _ => .error .Io
  | fuel + 1, l =>
    match read_entry l with
    | .error e => .error e
    | .ok none => .ok []
    | .ok (some (entry, rest)) =>
      match from_reader_go fuel rest with
      | .error e => .error e
      | .ok entries => .ok (entry :: entries)

/-- `from_reader`: read entries until `read_entry` reports end of input. -/
def from_reader (l : List Nat) : Except ParseError (List XAuthEntry) :=
  from_reader_go (l.length + 1) l

/-! ### Record encodings, for stating what a well-formed Xauthority buffer is -/

/-- Two big-endian bytes of a 16-bit value. -/
def u16be (n : Nat) : List Nat := [n / 256 % 256, n % 256]

/-- On-disk shape of one record: family, then four length-prefixed strings. -/
structure XAuthRecord where
  family : Nat
  display_name : List Nat
  display_number : List Nat
  protocol_name : List Nat
  protocol_data : List Nat
  deriving DecidableEq

/-- Length-prefixed string encoding. -/
def encodeString (s : List Nat) : List Nat := u16be s.length ++ s

/-- Byte encoding of one record. -/
def encodeRecord (r : XAuthRecord) : List Nat :=
  u16be r.family ++ encodeString r.display_name ++ encodeString r.display_number ++
    encodeString r.protocol_name ++ encodeString r.protocol_data

/-- The entry a record should decode to, when its family is known and
its display number parses. -/
def decodeRecord (r : XAuthRecord) : Option XAuthEntry :=
  match ConnectionFamily.tryFrom r.family, parseU16Bytes r.display_number with
  | some cf, some num =>
    some ⟨cf, r.display_name, num, r.protocol_name, r.protocol_data⟩
  | _, _ => none

/-- Placeholder entry for `Option.getD`. -/
def defaultXAuthEntry : XAuthEntry := ⟨.Wild, [], 0, [], []⟩

/-- Total version of `decodeRecord` on well-formed records. -/
def decodeRecordD (r : XAuthRecord) : XAuthEntry :=
  (decodeRecord r).getD defaultXAuthEntry

/-- Well-formed record: all 16-bit fields fit, the family is known and
the display number parses as u16 decimal. -/
def WFRecord (r : XAuthRecord) : Prop :=
  r.family < 65536 ∧ r.display_name.length < 65536 ∧ r.display_number.length < 65536 ∧
    r.protocol_name.length < 65536 ∧ r.protocol_data.length < 65536 ∧
    (decodeRecord r).isSome

instance (r : XAuthRecord) : Decidable (WFRecord r) := by
  unfold WFRecord; infer_instance

/-! ## Display address parser (src/display.rs) -/

/-- The `DISPLAY` address type.  The Rust `String` hostname is a
`List Char`. -/
structure Display where
  hostname : Option (List Char)
  display : Nat
  screen : Option Nat
  deriving DecidableEq

/-- `DisplayError`. -/
inductive DisplayError where
  | InvalidDisplayFormat
  | DisplayNotSet
  deriving DecidableEq

/-- `s.find(|c| c == ch)` plus the two slices around the found
character: the part strictly before the first occurrence and the part
strictly after it; `none` when the character does not occur. -/
def splitAtFirst (ch : Char) : List Char → Option (List Char × List Char)
  | [] => none
  | x :: xs =>
    if x = ch then some ([], xs)
    else
      match splitAtFirst ch xs with
      | none => none
      | some (pre, post) => some (x :: pre, post)

/-- ASCII decimal digit value of a character. -/
def charDigit (c : Char) : Option Nat :=
  if 48 ≤ c.toNat ∧ c.toNat ≤ 57 then some (c.toNat - 48) else none

/-- Accumulating decimal valuation of a character string. -/
def digitsValChars : List Char → Nat → Option Nat
  | [], acc => some acc
  | c :: cs, acc =>
    match charDigit c with
    | none => none
    | some d => digitsValChars cs (10 * acc + d)

/-- Drop one leading `+`, as Rust unsigned parsing accepts it. -/
def stripPlusChar (s : List Char) : List Char :=
  match s with
  | c :: rest => if c = '+' then rest else s
  | [] => s

/-- `str::parse::<u16>` on a character string (see `parseU16Bytes`). -/
def parseU16Chars (s : List Char) : Option Nat :=
  let t := stripPlusChar s
  if t = [] then none
  else
    match digitsValChars t 0 with
    | none => none
    | some v => if v < 65536 then some v else none

/-- `Display::from_str`: text before the first `:` is the optional
hostname (empty means none); after it, up to an optional `.`, the
mandatory display number; after the `.`, the screen number. -/
def Display.from_str (s : List Char) : Except DisplayError Display :=
  match splitAtFirst ':' s with
  | none => .error .InvalidDisplayFormat
  | some (pre, rest) =>
    let hostname : Option (List Char) := if pre = [] then none else some pre
    match splitAtFirst '.' rest with
    | none =>
      if rest = [] then .error .InvalidDisplayFormat
      else
        match parseU16Chars rest with
        | none => .error .InvalidDisplayFormat
        | some display => .ok ⟨hostname, display, none⟩
    | some (dstr, sstr) =>
      if dstr = [] then .error .InvalidDisplayFormat
      else
        match parseU16Chars dstr with
        | none => .error .InvalidDisplayFormat
        | some display =>
          match parseU16Chars sstr with
          | none => .error .InvalidDisplayFormat
          | some screen => .ok ⟨hostname, display, some screen⟩

/-- One decimal digit character. -/
def digitChar (m : Nat) : Char :=
  match m with
  | 0 => '0'
  | 1 => '1'
  | 2 => '2'
  | 3 => '3'
  | 4 => '4'
  | 5 => '5'
  | 6 => '6'
  | 7 => '7'
  | 8 => '8'
  | _ => '9'

/-- Fuel-based canonical decimal formatter (least-significant digit
first into the accumulator); `n + 1` fuel always covers all digits. -/
def natDecimalGo : Nat → Nat → List Char → List Char
  | 0, _, acc => acc
  | fuel + 1, n, acc =>
    let acc2 := digitChar (n % 10) :: acc
    if n < 10 then acc2 else natDecimalGo fuel (n / 10) acc2

/-- Canonical decimal digits of a number, as produced by Rust integer
`Display` formatting (no sign, no leading zeros). -/
def natDecimal (n : Nat) : List Char := natDecimalGo (n + 1) n []

/-- `impl fmt::Display for Display`: hostname-or-empty, `:`, display
number, then `.screen` only when a screen is present. -/
def Display.format (d : Display) : List Char :=
  (d.hostname.getD []) ++ ':' :: (natDecimal d.display ++
    (match d.screen with
     | none => []
     | some s => '.' :: natDecimal s))

/-- The textual screen suffix of a display string. -/
def screenSuffix : Option Nat → List Char
  | none => []
  | some m => '.' :: natDecimal m

/-- The optional hostname a parsed hostname segment resolves to. -/
def hostOpt (host : List Char) : Option (List Char) :=
  if host = [] then none else some host

/-! ## Connection orchestrator (src/connection.rs) -/

/-- `ConnectionError` (payloads collapsed). -/
inductive ConnectionError where
  | DisplayNotAvailable
  | Io
  deriving DecidableEq

/-- Outcome of `connect_to_display` up to its first I/O:
`unimplemented!` panics for hostname- or screen-qualified addresses are
`panicked`; otherwise it proceeds to open the Unix socket
`/tmp/.X11-unix/X<display>` (`proceedsToIo` carries that display
number). -/
inductive ConnectOutcome where
  | panicked
  | proceedsToIo (display : Nat)
  deriving DecidableEq

/-- `connect_to_display`: the two `unimplemented!` guards, then the
socket connect. -/
def connect_to_display (d : Display) : ConnectOutcome :=
  if d.hostname.isSome then .panicked
  else if d.screen.isSome then .panicked
  else .proceedsToIo d.display

/-! ## Framed transport (src/framed.rs) and SETUP codec (src/protocol/setup_codec.rs) -/

/-- Framed-transport errors: `eof` is the `UnexpectedEof` produced on a
zero-length read, `codecErr` stands for any other codec error value. -/
inductive FrameError where
  | eof
  | codecErr
  deriving DecidableEq

/-- The state a `Framed` owns: the unread bytes of the underlying
stream and the accumulated `read_buffer`. -/
structure FramedState where
  stream : List Nat
  buffer : List Nat
  deriving DecidableEq

/-- `Framed::next` with fuel: decode the buffer; on `ok none`
(insufficient data) read up to 1024 bytes from the stream, a zero-length
read being an `eof` error, append and retry; decoder errors propagate
immediately.  A decoder returns the decoded item and the remaining
buffer. -/
def framedNextGo {α : Type} (decode : List Nat → Except FrameError (Option (α × List Nat))) :
    Nat → FramedState → Except FrameError (α × FramedState)
  | 0, _ => .error .eof
  | fuel + 1, st =>
    match decode st.buffer with
    | .error e => .error e
    | .ok (some (item, rest)) => .ok (item, ⟨st.stream, rest⟩)
    | .ok none =>
      match st.stream with
      | [] => .error .eof
      | _ => framedNextGo decode fuel ⟨st.stream.drop 1024, st.buffer ++ st.stream.take 1024⟩

/-- `Framed::next` (every iteration that does not finish consumes
stream bytes, so `length + 1` fuel suffices). -/
def framedNext {α : Type} (decode : List Nat → Except FrameError (Option (α × List Nat)))
    (st : FramedState) : Except FrameError (α × FramedState) :=
  framedNextGo decode (st.stream.length + 1) st

/-- Position of the first newline byte, as
`src.iter().position(|c| *c == b'\n')`. -/
def findNL : List Nat → Option Nat
  | [] => none
  | b :: bs => if b = 10 then some 0 else (findNL bs).map (· + 1)

/-- The test `LinesCodec` decoder: no newline means not enough data;
otherwise drain through the newline, yielding the bytes before it. -/
def linesDecode (src : List Nat) : Except FrameError (Option (List Nat × List Nat)) :=
  match findNL src with
  | none => .ok none
  | some p => .ok (some (src.take p, src.drop (p + 1)))

/-- `SetupCodec::encode`: writes nothing to the outgoing buffer. -/
def setupEncode (_item : Unit) (dst : List Nat) : Except FrameError (List Nat) := .ok dst

/-- `SetupCodec::decode`: always reports not-yet-enough-data. -/
def setupDecode (_src : List Nat) : Except FrameError (Option (Unit × List Nat)) := .ok none

/-- `Framed::new`: stores the stream and an empty read buffer. -/
def Framed.new (stream : List Nat) : FramedState := ⟨stream, []⟩

/-- A `Connection` wraps the framed SETUP transport. -/
structure Connection where
  framed : FramedState
  deriving DecidableEq

/-- `Connection::setup`: builds the codec and the framed wrapper and
returns `Ok`; no byte is read from or written to the stream. -/
def Connection.setup (stream : List Nat) : Except ConnectionError Connection :=
  .ok ⟨Framed.new stream⟩

/-! ## Wire primitives (src/protocol.rs) and SETUP request (src/protocol/setup_request.rs) -/

/-- `pad`: filler bytes to reach 4-byte alignment. -/
def pad (e : Nat) : Nat := (4 - e % 4) % 4

/-- Byte order chosen at compile time from the target. -/
inductive ByteOrder where
  | bigEndian
  | littleEndian
  deriving DecidableEq

/-- `BYTE_ORDER`: `b'B'` (66) on big-endian targets, `b'l'` (108) on
little-endian targets. -/
def BYTE_ORDER : ByteOrder → Nat
  | .bigEndian => 66
  | .littleEndian => 108

/-- `PROTOCOL_MAJOR_VERSION`. -/
def PROTOCOL_MAJOR_VERSION : Nat := 11

/-- `PROTOCOL_MINOR_VERSION`. -/
def PROTOCOL_MINOR_VERSION : Nat := 0

/-- `write_u16_ne`: the two bytes of a 16-bit value in native order
(the `% 256` also models the `as u16` truncating cast at the call
sites in `serialize`). -/
def u16ne (bo : ByteOrder) (n : Nat) : List Nat :=
  match bo with
  | .bigEndian => [n / 256 % 256, n % 256]
  | .littleEndian => [n % 256, n / 256 % 256]

/-- Value of a native-order 16-bit field. -/
def u16neVal (bo : ByteOrder) (bs : List Nat) : Nat :=
  match bo, bs with
  | .bigEndian, [hi, lo] => hi * 256 + lo
  | .littleEndian, [lo, hi] => hi * 256 + lo
  | _, _ => 0

/-- `SetupRequest` (name kept as its UTF-8 bytes, as `serialize` writes
`as_bytes()`). -/
structure SetupRequest where
  auth_protocol_name : List Nat
  auth_protocol_data : List Nat
  deriving DecidableEq

/-- `SetupRequest::new`: `u16::try_from` on both lengths, failing
exactly when a length exceeds 65535. -/
def SetupRequest.new (auth_protocol_name auth_protocol_data : List Nat) :
    Option SetupRequest :=
  if auth_protocol_name.length ≤ 65535 ∧ auth_protocol_data.length ≤ 65535 then
    some ⟨auth_protocol_name, auth_protocol_data⟩
  else none

/-- `SetupRequest::serialize`: the exact SETUP request byte layout
(writing into a byte vector never fails, so the result is the plain
byte list). -/
def SetupRequest.serialize (bo : ByteOrder) (r : SetupRequest) : List Nat :=
  BYTE_ORDER bo :: 0 ::
    (u16ne bo PROTOCOL_MAJOR_VERSION ++ u16ne bo PROTOCOL_MINOR_VERSION ++
      u16ne bo r.auth_protocol_name.length ++ u16ne bo r.auth_protocol_data.length ++
      0 :: 0 ::
        (r.auth_protocol_name ++ List.replicate (pad r.auth_protocol_name.length) 0 ++
          r.auth_protocol_data ++ List.replicate (pad r.auth_protocol_data.length) 0))

/-! ## Theorems -/

/-- Claim C9: `pad n` equals `(4 - (n mod 4)) mod 4`, makes `n + pad n`
a multiple of 4, is at most 3, and `pad 0 = 0`. -/
theorem C9_pad_alignment (n : Nat) :
    pad n = (4 - n % 4) % 4 ∧ (n + pad n) % 4 = 0 ∧ pad n ≤ 3 ∧ pad 0 = 0 := by
  refine ⟨rfl, ?_, ?_, rfl⟩ <;> unfold pad <;> omega

/-- Claim C1 (code evaluation at the failing inputs): `from_reader`
accepts end-of-file strictly inside a record.  A buffer holding one byte
of a family code parses as the empty entry sequence, and a record whose
final length-prefixed string declares 3 bytes of protocol data while
only 1 byte remains parses as one entry with the truncated data. -/
theorem C1_truncated_midrecord_parses_ok :
    from_reader [1] = .ok [] ∧
      from_reader [1, 0, 0, 0, 0, 1, 48, 0, 0, 0, 3, 171] =
        .ok [⟨.Local, [], 0, [], [171]⟩] :=
  ⟨rfl, rfl⟩

/-- Claim C10: `Connection::setup` always returns `Ok` and leaves the
stream untouched (no byte consumed, empty read buffer), and
`SetupCodec` encodes nothing and always decodes to not-yet-enough-data. -/
theorem C10_setup_no_io :
    (∀ stream : List Nat, Connection.setup stream = .ok ⟨⟨stream, []⟩⟩) ∧
      (∀ dst : List Nat, setupEncode () dst = .ok dst) ∧
      (∀ src : List Nat, setupDecode src = .ok none) :=
  ⟨fun _ => rfl, fun _ => rfl, fun _ => rfl⟩

/-- Claim C3 counterexample: for a hostname-qualified address and for a
screen-qualified address, `connect_to_display` panics (the
`unimplemented!` macro) instead of returning an explicit failure value —
the claim's no-panic assertion is false. -/
theorem C3_counterexample_panics :
    connect_to_display ⟨some ['h'], 0, none⟩ = .panicked ∧
      connect_to_display ⟨none, 0, some 1⟩ = .panicked :=
  ⟨rfl, rfl⟩

/-- Claim C3 as amended: whenever the hostname or the screen is present,
`connect_to_display` diverges with an `unimplemented!` panic before any
I/O is attempted (it never reaches the socket connect); it does not
return a `ConnectionError` value. -/
theorem C3_rejects_by_panic (d : Display)
    (h : d.hostname.isSome ∨ d.screen.isSome) :
    connect_to_display d = .panicked := by
  unfold connect_to_display
  rcases h with h | h
  · simp [h]
  · cases hh : d.hostname.isSome
    · simp [hh, h]
    · simp [hh]

/-- Witness for the amended claim C3 at a concrete address. -/
theorem C3_rejects_by_panic_witness :
    connect_to_display ⟨some ['h'], 10, none⟩ = .panicked :=
  C3_rejects_by_panic ⟨some ['h'], 10, none⟩ (Or.inl rfl)

/-- Claim C6: construction fails exactly when a field exceeds 65535
bytes, and for every constructed request the 16-bit length fields of the
wire format represent the true field lengths with no truncation, in
either byte order — so serialization never fails or lies because of
field lengths. -/
theorem C6_new_length_check (name data : List Nat) :
    (SetupRequest.new name data = none ↔
      65535 < name.length ∨ 65535 < data.length) ∧
      (∀ r, SetupRequest.new name data = some r → ∀ bo,
        u16neVal bo (u16ne bo r.auth_protocol_name.length) = r.auth_protocol_name.length ∧
          u16neVal bo (u16ne bo r.auth_protocol_data.length) = r.auth_protocol_data.length) := by
  constructor
  · unfold SetupRequest.new
    split <;> (simp_all; try omega)
  · intro r hr bo
    unfold SetupRequest.new at hr
    split at hr
    · cases hr
      rename_i hlen
      cases bo <;> (simp [u16ne, u16neVal]; omega)
    · cases hr

/-- Witness for claim C6 at a concrete constructed request. -/
theorem C6_new_length_check_witness :
    u16neVal .littleEndian (u16ne .littleEndian (([65] : List Nat)).length) =
        (([65] : List Nat)).length ∧
      u16neVal .littleEndian (u16ne .littleEndian (([66, 67] : List Nat)).length) =
        (([66, 67] : List Nat)).length :=
  (C6_new_length_check [65] [66, 67]).2 ⟨[65], [66, 67]⟩ rfl .littleEndian

/-- Claim C7: for every constructed request, `serialize` emits exactly
the order byte, a zero byte, versions 11 and 0 in native order, the two
native-order length fields, two zero bytes, the name padded with
`pad` zero bytes, then the data padded with `pad` zero bytes; with empty
name and data this is exactly the 12 header bytes. -/
theorem C7_serialize_layout (bo : ByteOrder) (name data : List Nat) (r : SetupRequest)
    (h : SetupRequest.new name data = some r) :
    SetupRequest.serialize bo r =
      [BYTE_ORDER bo, 0] ++ u16ne bo 11 ++ u16ne bo 0 ++ u16ne bo name.length ++
        u16ne bo data.length ++ [0, 0] ++ name ++ List.replicate (pad name.length) 0 ++
        data ++ List.replicate (pad data.length) 0 ∧
      (name = [] → data = [] →
        SetupRequest.serialize bo r = [BYTE_ORDER bo, 0] ++ u16ne bo 11 ++ u16ne bo 0 ++
          [0, 0, 0, 0, 0, 0]) := by
  unfold SetupRequest.new at h
  split at h
  · cases h
    constructor
    · simp [SetupRequest.serialize, PROTOCOL_MAJOR_VERSION, PROTOCOL_MINOR_VERSION]
    · intro hn hd
      subst hn; subst hd
      cases bo <;> rfl
  · cases h

/-- Witness for claim C7: the empty little-endian request serializes to
the exact 12 bytes of the repository's own test vector. -/
theorem C7_serialize_layout_witness :
    SetupRequest.serialize .littleEndian ⟨[], []⟩ =
      [108, 0, 11, 0, 0, 0, 0, 0, 0, 0, 0, 0] :=
  (C7_serialize_layout .littleEndian [] [] ⟨[], []⟩ rfl).2 rfl rfl

/-- Claim C8: over a stream emitting the bytes of
`line1\nline2\nline3` and then end-of-stream, with the newline codec,
the first `next` yields `line1`, the second `line2`, and the third fails
with the unexpected-end-of-stream error; in general a zero-length read
while a decode is pending yields that error, and a decode error is
propagated immediately without any further read. -/
theorem C8_framed_next_lines :
    (framedNext linesDecode
        ⟨[108, 105, 110, 101, 49, 10, 108, 105, 110, 101, 50, 10, 108, 105, 110, 101, 51], []⟩ =
        .ok ([108, 105, 110, 101, 49],
          ⟨[], [108, 105, 110, 101, 50, 10, 108, 105, 110, 101, 51]⟩) ∧
      framedNext linesDecode ⟨[], [108, 105, 110, 101, 50, 10, 108, 105, 110, 101, 51]⟩ =
        .ok ([108, 105, 110, 101, 50], ⟨[], [108, 105, 110, 101, 51]⟩) ∧
      framedNext linesDecode ⟨[], [108, 105, 110, 101, 51]⟩ = .error .eof) ∧
      (∀ (α : Type) (decode : List Nat → Except FrameError (Option (α × List Nat)))
        (st : FramedState) (e : FrameError) (fuel : Nat),
        decode st.buffer = .error e → framedNextGo decode (fuel + 1) st = .error e) ∧
      (∀ (α : Type) (decode : List Nat → Except FrameError (Option (α × List Nat)))
        (st : FramedState) (fuel : Nat),
        decode st.buffer = .ok none → st.stream = [] →
          framedNextGo decode (fuel + 1) st = .error .eof) := by
  refine ⟨⟨rfl, rfl, rfl⟩, ?_, ?_⟩
  · intro α decode st e fuel h
    simp only [framedNextGo]
    rw [h]
  · intro α decode st fuel h hs
    simp only [framedNextGo]
    rw [h, hs]

/-- Witness for claim C8's general clauses: a decoder that fails
structurally makes `next` fail with that error at once, and a pending
decode over an exhausted stream fails with the end-of-stream error. -/
theorem C8_framed_next_lines_witness :
    framedNextGo (fun _ => (.error .codecErr : Except FrameError (Option (Unit × List Nat))))
        1 ⟨[], []⟩ = .error .codecErr ∧
      framedNextGo linesDecode 1 ⟨[], [108]⟩ = .error .eof :=
  ⟨C8_framed_next_lines.2.1 Unit (fun _ => .error .codecErr) ⟨[], []⟩ .codecErr 0 rfl,
    C8_framed_next_lines.2.2 (List Nat) linesDecode ⟨[], [108]⟩ 0 rfl rfl⟩

/-! ### Lemmas about the Xauthority reader -/

theorem readU16BE_u16be_append (n : Nat) (rest : List Nat) (h : n < 65536) :
    readU16BE (u16be n ++ rest) = some (n, rest) := by
  simp only [u16be, List.cons_append, List.nil_append, readU16BE]
  have : n / 256 % 256 * 256 + n % 256 = n := by omega
  rw [this]

theorem read_sized_string_encode (s rest : List Nat) (h : s.length < 65536) :
    read_sized_string (encodeString s ++ rest) = some (s, rest) := by
  unfold read_sized_string encodeString
  rw [List.append_assoc, readU16BE_u16be_append s.length (s ++ rest) h]
  simp

theorem decodeRecord_eq_some (r : XAuthRecord) (h : (decodeRecord r).isSome) :
    decodeRecord r = some (decodeRecordD r) := by
  cases hd : decodeRecord r with
  | none => rw [hd] at h; cases h
  | some e => simp [decodeRecordD, hd]

theorem read_entry_encode (r : XAuthRecord) (rest : List Nat) (h : WFRecord r) :
    read_entry (encodeRecord r ++ rest) = .ok (some (decodeRecordD r, rest)) := by
  obtain ⟨h1, h2, h3, h4, h5, h6⟩ := h
  have hsome := decodeRecord_eq_some r h6
  cases hcf : ConnectionFamily.tryFrom r.family with
  | none => simp [decodeRecord, hcf] at hsome
  | some cf =>
    cases hnum : parseU16Bytes r.display_number with
    | none => simp [decodeRecord, hcf, hnum] at hsome
    | some num =>
      have hbuf : encodeRecord r ++ rest =
          u16be r.family ++ (encodeString r.display_name ++ (encodeString r.display_number ++
            (encodeString r.protocol_name ++ (encodeString r.protocol_data ++ rest)))) := by
        simp [encodeRecord]
      simp only [decodeRecord, hcf, hnum, Option.some.injEq] at hsome
      rw [hbuf]
      simp only [read_entry, readU16BE_u16be_append r.family _ h1, hcf,
        read_sized_string_encode r.display_name _ h2,
        read_sized_string_encode r.display_number _ h3,
        read_sized_string_encode r.protocol_name _ h4,
        read_sized_string_encode r.protocol_data _ h5, hnum]
      rw [hsome]

theorem read_entry_encode_bad_number (r : XAuthRecord) (rest : List Nat)
    (h1 : r.family < 65536) (h2 : r.display_name.length < 65536)
    (h3 : r.display_number.length < 65536) (h4 : r.protocol_name.length < 65536)
    (h5 : r.protocol_data.length < 65536) (hnum : parseU16Bytes r.display_number = none) :
    read_entry (encodeRecord r ++ rest) = .error .InvalidFile := by
  have hbuf : encodeRecord r ++ rest =
      u16be r.family ++ (encodeString r.display_name ++ (encodeString r.display_number ++
        (encodeString r.protocol_name ++ (encodeString r.protocol_data ++ rest)))) := by
    simp [encodeRecord]
  rw [hbuf]
  cases hcf : ConnectionFamily.tryFrom r.family with
  | none =>
    simp only [read_entry, readU16BE_u16be_append r.family _ h1, hcf]
  | some cf =>
    simp only [read_entry, readU16BE_u16be_append r.family _ h1, hcf,
      read_sized_string_encode r.display_name _ h2,
      read_sized_string_encode r.display_number _ h3,
      read_sized_string_encode r.protocol_name _ h4,
      read_sized_string_encode r.protocol_data _ h5, hnum]

theorem readU16BE_length (l : List Nat) (n : Nat) (r : List Nat)
    (h : readU16BE l = some (n, r)) : r.length + 2 = l.length := by
  match l with
  | [] => cases h
  | [_] => cases h
  | b0 :: b1 :: rest => cases h; simp

theorem read_sized_string_length (l s r : List Nat)
    (h : read_sized_string l = some (s, r)) : r.length < l.length := by
  unfold read_sized_string at h
  cases hu : readU16BE l with
  | none => rw [hu] at h; cases h
  | some p =>
    obtain ⟨n, rest⟩ := p
    rw [hu] at h
    cases h
    have := readU16BE_length l n rest hu
    have hd : (rest.drop n).length ≤ rest.length := by simp
    omega

theorem read_entry_length (l : List Nat) (e : XAuthEntry) (r : List Nat)
    (h : read_entry l = .ok (some (e, r))) : r.length < l.length := by
  unfold read_entry at h
  cases hu : readU16BE l with
  | none => simp [hu] at h
  | some p =>
    obtain ⟨fam, r0⟩ := p
    simp only [hu] at h
    have hu2 := readU16BE_length l fam r0 hu
    cases hcf : ConnectionFamily.tryFrom fam with
    | none => simp [hcf] at h
    | some cf =>
      simp only [hcf] at h
      cases hs1 : read_sized_string r0 with
      | none => simp [hs1] at h
      | some p1 =>
        obtain ⟨s1, r1⟩ := p1
        simp only [hs1] at h
        have hl1 := read_sized_string_length r0 s1 r1 hs1
        cases hs2 : read_sized_string r1 with
        | none => simp [hs2] at h
        | some p2 =>
          obtain ⟨s2, r2⟩ := p2
          simp only [hs2] at h
          have hl2 := read_sized_string_length r1 s2 r2 hs2
          cases hs3 : read_sized_string r2 with
          | none => simp [hs3] at h
          | some p3 =>
            obtain ⟨s3, r3⟩ := p3
            simp only [hs3] at h
            have hl3 := read_sized_string_length r2 s3 r3 hs3
            cases hs4 : read_sized_string r3 with
            | none => simp [hs4] at h
            | some p4 =>
              obtain ⟨s4, r4⟩ := p4
              simp only [hs4] at h
              have hl4 := read_sized_string_length r3 s4 r4 hs4
              cases hn : parseU16Bytes s2 with
              | none => simp [hn] at h
              | some num =>
                simp only [hn, Except.ok.injEq, Option.some.injEq, Prod.mk.injEq] at h
                obtain ⟨-, hr⟩ := h
                subst hr
                omega

theorem from_reader_go_succ (fuel : Nat) (l : List Nat) :
    from_reader_go (fuel + 1) l =
      match read_entry l with
      | .error e => .error e
      | .ok none => .ok []
      | .ok (some (entry, rest)) =>
        match from_reader_go fuel rest with
        | .error e => .error e
        | .ok entries => .ok (entry :: entries) := rfl

theorem from_reader_step_error (fuel : Nat) (l : List Nat) (e : ParseError)
    (he : read_entry l = .error e) : from_reader_go (fuel + 1) l = .error e := by
  rw [from_reader_go_succ, he]

theorem from_reader_step_none (fuel : Nat) (l : List Nat)
    (he : read_entry l = .ok none) : from_reader_go (fuel + 1) l = .ok [] := by
  rw [from_reader_go_succ, he]

theorem from_reader_step (fuel : Nat) (l : List Nat) (e : XAuthEntry) (rest : List Nat)
    (he : read_entry l = .ok (some (e, rest))) :
    from_reader_go (fuel + 1) l =
      match from_reader_go fuel rest with
      | .error err => .error err
      | .ok es => .ok (e :: es) := by
  rw [from_reader_go_succ, he]

theorem from_reader_go_congr : ∀ f1 f2 l, l.length < f1 → l.length < f2 →
    from_reader_go f1 l = from_reader_go f2 l := by
  intro f1
  induction f1 with
  | zero => intro f2 l h1 h2; exact absurd h1 (Nat.not_lt_zero _)
  | succ k ih =>
    intro f2 l h1 h2
    cases f2 with
    | zero => exact absurd h2 (Nat.not_lt_zero _)
    | succ m =>
      cases he : read_entry l with
      | error e => rw [from_reader_step_error k l e he, from_reader_step_error m l e he]
      | ok o =>
        cases o with
        | none => rw [from_reader_step_none k l he, from_reader_step_none m l he]
        | some p =>
          obtain ⟨entry, rest⟩ := p
          have hlt := read_entry_length l entry rest he
          rw [from_reader_step k l entry rest he, from_reader_step m l entry rest he,
            ih m rest (by omega) (by omega)]

theorem encodeRecord_length_pos (r : XAuthRecord) : 0 < (encodeRecord r).length := by
  simp [encodeRecord, u16be]

theorem from_reader_append (rs : List XAuthRecord) (h : ∀ r ∈ rs, WFRecord r)
    (tail : List Nat) :
    from_reader ((rs.map encodeRecord).flatten ++ tail) =
      (from_reader tail).map (fun es => rs.map decodeRecordD ++ es) := by
  induction rs with
  | nil =>
    simp only [List.map_nil, List.flatten_nil, List.nil_append]
    cases hc : from_reader tail <;> simp [Except.map, hc]
  | cons r rs ih =>
    have hr : WFRecord r := h r (by simp)
    have hrs : ∀ x ∈ rs, WFRecord x := fun x hx => h x (by simp [hx])
    have hbuf : ((r :: rs).map encodeRecord).flatten ++ tail =
        encodeRecord r ++ ((rs.map encodeRecord).flatten ++ tail) := by
      simp
    rw [hbuf]
    have lhs1 : from_reader (encodeRecord r ++ ((rs.map encodeRecord).flatten ++ tail)) =
        match from_reader_go (encodeRecord r ++ ((rs.map encodeRecord).flatten ++ tail)).length
            ((rs.map encodeRecord).flatten ++ tail) with
        | .error err => .error err
        | .ok es => .ok (decodeRecordD r :: es) :=
      from_reader_step _ _ _ _ (read_entry_encode r _ hr)
    rw [lhs1]
    have hlen : ((rs.map encodeRecord).flatten ++ tail).length <
        (encodeRecord r ++ ((rs.map encodeRecord).flatten ++ tail)).length := by
      have := encodeRecord_length_pos r
      simp only [List.length_append]
      omega
    rw [from_reader_go_congr _ (((rs.map encodeRecord).flatten ++ tail).length + 1) _
      (by omega) (by omega)]
    have ihe : from_reader_go (((rs.map encodeRecord).flatten ++ tail).length + 1)
        ((rs.map encodeRecord).flatten ++ tail) =
        (from_reader tail).map (fun es => rs.map decodeRecordD ++ es) := ih hrs
    rw [ihe]
    cases hc : from_reader tail <;> simp [Except.map, hc]

/-- Claim C4: a buffer that is the concatenation of well-formed records
parses successfully to exactly one entry per record, in file order, each
entry decoded from its record; the empty buffer yields the empty entry
sequence, not an error. -/
theorem C4_from_reader_concat_records (records : List XAuthRecord)
    (h : ∀ r ∈ records, WFRecord r) :
    from_reader ((records.map encodeRecord).flatten) = .ok (records.map decodeRecordD) ∧
      List.Forall₂ (fun rec ent => decodeRecord rec = some ent) records
        (records.map decodeRecordD) ∧
      from_reader [] = .ok [] := by
  refine ⟨?_, ?_, rfl⟩
  · have happ := from_reader_append records h []
    rw [show from_reader ([] : List Nat) = .ok [] from rfl] at happ
    simpa [Except.map] using happ
  · induction records with
    | nil => exact List.Forall₂.nil
    | cons r rs ih =>
      refine List.Forall₂.cons ?_ (ih (fun x hx => h x (by simp [hx])))
      exact decodeRecord_eq_some r (h r (by simp)).2.2.2.2.2

/-- Witness for claim C4: the repository's own single-record test vector
(family 256, name `hostname`, number text `0`, protocol
`MIT-MAGIC-COOKIE-1`, data `ab cd ef`) parses to the expected entry. -/
theorem C4_from_reader_concat_records_witness :
    from_reader (([⟨256, [104, 111, 115, 116, 110, 97, 109, 101], [48],
        [77, 73, 84, 45, 77, 65, 71, 73, 67, 45, 67, 79, 79, 75, 73, 69, 45, 49],
        [171, 205, 239]⟩] : List XAuthRecord).map encodeRecord).flatten =
      .ok (([⟨256, [104, 111, 115, 116, 110, 97, 109, 101], [48],
        [77, 73, 84, 45, 77, 65, 71, 73, 67, 45, 67, 79, 79, 75, 73, 69, 45, 49],
        [171, 205, 239]⟩] : List XAuthRecord).map decodeRecordD) ∧
      List.Forall₂ (fun rec ent => decodeRecord rec = some ent)
        ([⟨256, [104, 111, 115, 116, 110, 97, 109, 101], [48],
          [77, 73, 84, 45, 77, 65, 71, 73, 67, 45, 67, 79, 79, 75, 73, 69, 45, 49],
          [171, 205, 239]⟩] : List XAuthRecord)
        (([⟨256, [104, 111, 115, 116, 110, 97, 109, 101], [48],
          [77, 73, 84, 45, 77, 65, 71, 73, 67, 45, 67, 79, 79, 75, 73, 69, 45, 49],
          [171, 205, 239]⟩] : List XAuthRecord).map decodeRecordD) ∧
      from_reader [] = .ok [] :=
  C4_from_reader_concat_records _ (by decide)

/-- Claim C5: a buffer of well-formed records followed by a record whose
family code is unknown (not 252, 253, 254, 256 or 65535), or by a
structurally complete record whose display-number text does not parse as
an unsigned 16-bit decimal, makes the whole read fail with the format
error `InvalidFile`: no entry is returned and there is no
skip-and-continue recovery. -/
theorem C5_bad_record_fails_whole_read (records : List XAuthRecord)
    (h : ∀ r ∈ records, WFRecord r) (tail suffix : List Nat)
    (hbad : (∃ fam, fam < 65536 ∧ ConnectionFamily.tryFrom fam = none ∧
        tail = u16be fam ++ suffix) ∨
      (∃ br : XAuthRecord, br.family < 65536 ∧ br.display_name.length < 65536 ∧
        br.display_number.length < 65536 ∧ br.protocol_name.length < 65536 ∧
        br.protocol_data.length < 65536 ∧ parseU16Bytes br.display_number = none ∧
        tail = encodeRecord br ++ suffix)) :
    from_reader ((records.map encodeRecord).flatten ++ tail) = .error .InvalidFile := by
  rw [from_reader_append records h tail]
  have hs : from_reader tail = .error .InvalidFile := by
    rcases hbad with ⟨fam, hf, hcf, ht⟩ | ⟨br, h1, h2, h3, h4, h5, hnum, ht⟩
    · subst ht
      have he : read_entry (u16be fam ++ suffix) = .error .InvalidFile := by
        simp only [read_entry, readU16BE_u16be_append fam suffix hf, hcf]
      exact from_reader_step_error _ _ _ he
    · subst ht
      exact from_reader_step_error _ _ _
        (read_entry_encode_bad_number br suffix h1 h2 h3 h4 h5 hnum)
  rw [hs]
  rfl

/-- Witness for claim C5: the two-byte buffer holding the unknown family
code 0 fails the whole read with `InvalidFile`. -/
theorem C5_bad_record_fails_whole_read_witness :
    from_reader ((([] : List XAuthRecord).map encodeRecord).flatten ++ (u16be 0 ++ [])) =
      .error .InvalidFile :=
  C5_bad_record_fails_whole_read [] (by decide) (u16be 0 ++ []) []
    (Or.inl ⟨0, by decide, rfl, rfl⟩)

/-! ### Lemmas about the display parser and decimal formatting -/

theorem natDecimalGo_succ (fuel n : Nat) (acc : List Char) :
    natDecimalGo (fuel + 1) n acc =
      if n < 10 then digitChar (n % 10) :: acc
      else natDecimalGo fuel (n / 10) (digitChar (n % 10) :: acc) := rfl

theorem natDecimalGo_acc : ∀ fuel n acc,
    natDecimalGo fuel n acc = natDecimalGo fuel n [] ++ acc := by
  intro fuel
  induction fuel with
  | zero => intro n acc; rfl
  | succ k ih =>
    intro n acc
    rw [natDecimalGo_succ, natDecimalGo_succ]
    by_cases h : n < 10
    · simp [h]
    · simp only [h, if_false]
      rw [ih (n / 10) (digitChar (n % 10) :: acc), ih (n / 10) [digitChar (n % 10)]]
      simp

theorem natDecimalGo_fuel : ∀ f1 f2 n acc, n < f1 → n < f2 →
    natDecimalGo f1 n acc = natDecimalGo f2 n acc := by
  intro f1
  induction f1 with
  | zero => intro f2 n acc h1; exact absurd h1 (Nat.not_lt_zero _)
  | succ k ih =>
    intro f2 n acc h1 h2
    cases f2 with
    | zero => exact absurd h2 (Nat.not_lt_zero _)
    | succ m =>
      rw [natDecimalGo_succ, natDecimalGo_succ]
      by_cases h : n < 10
      · simp [h]
      · simp only [h, if_false]
        have hd : n / 10 < n := Nat.div_lt_self (by omega) (by omega)
        exact ih m (n / 10) _ (by omega) (by omega)

theorem natDecimal_small (n : Nat) (h : n < 10) : natDecimal n = [digitChar n] := by
  unfold natDecimal
  rw [natDecimalGo_succ]
  simp [h, Nat.mod_eq_of_lt h]

theorem natDecimal_step (n : Nat) (h : 10 ≤ n) :
    natDecimal n = natDecimal (n / 10) ++ [digitChar (n % 10)] := by
  unfold natDecimal
  rw [natDecimalGo_succ]
  have h10 : ¬ n < 10 := by omega
  simp only [h10, if_false]
  have hd : n / 10 < n := Nat.div_lt_self (by omega) (by omega)
  rw [natDecimalGo_acc n (n / 10) [digitChar (n % 10)],
    natDecimalGo_fuel n (n / 10 + 1) (n / 10) [] (by omega) (by omega)]

theorem natDecimal_digits : ∀ n : Nat, ∃ m cs, m < 10 ∧ natDecimal n = digitChar m :: cs ∧
    (∀ c ∈ natDecimal n, ∃ k, k < 10 ∧ c = digitChar k) := by
  intro n
  induction n using Nat.strong_induction_on with
  | _ n ih =>
    by_cases h : n < 10
    · refine ⟨n, [], h, natDecimal_small n h, ?_⟩
      intro c hc
      rw [natDecimal_small n h] at hc
      simp at hc
      exact ⟨n, h, hc⟩
    · have hd : n / 10 < n := Nat.div_lt_self (by omega) (by omega)
      obtain ⟨m, cs, hm, hhead, hall⟩ := ih (n / 10) hd
      refine ⟨m, cs ++ [digitChar (n % 10)], hm, ?_, ?_⟩
      · rw [natDecimal_step n (by omega), hhead]
        simp
      · intro c hc
        rw [natDecimal_step n (by omega)] at hc
        rcases List.mem_append.mp hc with hc | hc
        · exact hall c hc
        · simp at hc
          exact ⟨n % 10, by omega, hc⟩

theorem charDigit_digitChar (m : Nat) (h : m < 10) : charDigit (digitChar m) = some m := by
  interval_cases m <;> decide

theorem digitChar_ne_special (m : Nat) (h : m < 10) :
    digitChar m ≠ '+' ∧ digitChar m ≠ ':' ∧ digitChar m ≠ '.' := by
  interval_cases m <;> exact ⟨by decide, by decide, by decide⟩

theorem digitsValChars_append : ∀ (xs ys : List Char) (acc : Nat),
    digitsValChars (xs ++ ys) acc =
      match digitsValChars xs acc with
      | none => none
      | some v => digitsValChars ys v := by
  intro xs
  induction xs with
  | nil => intro ys acc; rfl
  | cons c cs ih =>
    intro ys acc
    simp only [List.cons_append, digitsValChars]
    cases charDigit c with
    | none => rfl
    | some d => exact ih ys (10 * acc + d)

theorem natDecimal_val : ∀ n acc : Nat,
    digitsValChars (natDecimal n) acc = some (acc * 10 ^ (natDecimal n).length + n) := by
  intro n
  induction n using Nat.strong_induction_on with
  | _ n ih =>
    intro acc
    by_cases h : n < 10
    · rw [natDecimal_small n h]
      simp only [digitsValChars, charDigit_digitChar n h, List.length_cons,
        List.length_nil, pow_one, Nat.zero_add, pow_zero]
      ring_nf
    · have hd : n / 10 < n := Nat.div_lt_self (by omega) (by omega)
      rw [natDecimal_step n (by omega), digitsValChars_append, ih (n / 10) hd acc]
      simp only [digitsValChars, charDigit_digitChar (n % 10) (by omega)]
      simp only [List.length_append, List.length_cons, List.length_nil, Option.some.injEq]
      rw [pow_succ, ← mul_assoc]
      have hmod := Nat.div_add_mod n 10
      generalize acc * 10 ^ (natDecimal (n / 10)).length = u
      omega

theorem parseU16Chars_natDecimal (n : Nat) (h : n < 65536) :
    parseU16Chars (natDecimal n) = some n := by
  obtain ⟨m, cs, hm, hhead, -⟩ := natDecimal_digits n
  have hstrip : stripPlusChar (natDecimal n) = natDecimal n := by
    rw [hhead]
    simp [stripPlusChar, (digitChar_ne_special m hm).1]
  have hne : natDecimal n ≠ [] := by rw [hhead]; simp
  have hval : digitsValChars (natDecimal n) 0 = some n := by
    simpa using natDecimal_val n 0
  simp only [parseU16Chars, hstrip]
  rw [if_neg hne, hval]
  simp [h]

theorem colon_not_mem_natDecimal (n : Nat) : ':' ∉ natDecimal n := by
  intro hc
  obtain ⟨-, -, -, -, hall⟩ := natDecimal_digits n
  obtain ⟨k, hk, hck⟩ := hall ':' hc
  exact (digitChar_ne_special k hk).2.1 hck.symm

theorem dot_not_mem_natDecimal (n : Nat) : '.' ∉ natDecimal n := by
  intro hc
  obtain ⟨-, -, -, -, hall⟩ := natDecimal_digits n
  obtain ⟨k, hk, hck⟩ := hall '.' hc
  exact (digitChar_ne_special k hk).2.2 hck.symm

theorem splitAtFirst_not_mem (ch : Char) : ∀ l : List Char, ch ∉ l →
    splitAtFirst ch l = none := by
  intro l
  induction l with
  | nil => intro h; rfl
  | cons x xs ih =>
    intro h
    have hx : x ≠ ch := fun he => h (by simp [he])
    have hxs : ch ∉ xs := fun he => h (by simp [he])
    simp only [splitAtFirst, if_neg hx, ih hxs]

theorem splitAtFirst_append (ch : Char) : ∀ (pre : List Char), ch ∉ pre →
    ∀ post, splitAtFirst ch (pre ++ ch :: post) = some (pre, post) := by
  intro pre
  induction pre with
  | nil =>
    intro h post
    simp [splitAtFirst]
  | cons x xs ih =>
    intro h post
    have hx : x ≠ ch := fun he => h (by simp [he])
    have hxs : ch ∉ xs := fun he => h (by simp [he])
    simp only [List.cons_append, splitAtFirst, if_neg hx, List.append_eq, ih hxs post]

/-- Claim C2 counterexample: the valid display string `:00` (empty
hostname, display segment a non-empty run of decimal digits) parses
successfully, but formatting the result yields `:0`, not the original
input — so parse-then-format does not reproduce every digit-run input
exactly. -/
theorem C2_counterexample_leading_zero :
    Display.from_str [':', '0', '0'] = .ok ⟨none, 0, none⟩ ∧
      Display.format ⟨none, 0, none⟩ = [':', '0'] ∧
      ([':', '0'] : List Char) ≠ [':', '0', '0'] :=
  ⟨rfl, rfl, by decide⟩

/-- Claim C2 as amended: for every display string `h:d` or `h:d.s` in
which `h` contains no colon and `d` and `s` are the canonical decimal
digit runs (no sign, no leading zeros) of numbers below 65536,
`Display::from_str` succeeds with exactly those components and
formatting the result reproduces the input string character for
character, the screen segment appearing only when present.  (The
original claim fails for digit runs with leading zeros, which parse but
re-format canonically, and for digit runs whose value exceeds 65535,
which do not parse.) -/
theorem C2_roundtrip_canonical (host : List Char) (hh : ':' ∉ host) (n : Nat)
    (hn : n < 65536) (scr : Option Nat) (hs : ∀ m ∈ scr, m < 65536) :
    Display.from_str (host ++ ':' :: (natDecimal n ++ screenSuffix scr)) =
        .ok ⟨hostOpt host, n, scr⟩ ∧
      Display.format ⟨hostOpt host, n, scr⟩ =
        host ++ ':' :: (natDecimal n ++ screenSuffix scr) := by
  have hsplit := splitAtFirst_append ':' host hh (natDecimal n ++ screenSuffix scr)
  have hnD : natDecimal n ≠ [] := by
    obtain ⟨m, cs, hm, hhead, -⟩ := natDecimal_digits n
    rw [hhead]
    simp
  constructor
  · cases scr with
    | none =>
      simp only [screenSuffix, List.append_nil] at hsplit ⊢
      simp only [Display.from_str, hsplit,
        splitAtFirst_not_mem '.' (natDecimal n) (dot_not_mem_natDecimal n),
        if_neg hnD, parseU16Chars_natDecimal n hn, hostOpt]
    | some m =>
      have hm : m < 65536 := hs m rfl
      simp only [screenSuffix] at hsplit ⊢
      simp only [Display.from_str, hsplit,
        splitAtFirst_append '.' (natDecimal n) (dot_not_mem_natDecimal n) (natDecimal m),
        if_neg hnD, parseU16Chars_natDecimal n hn, parseU16Chars_natDecimal m hm, hostOpt]
  · by_cases hhost : host = []
    · subst hhost
      cases scr <;> simp [Display.format, hostOpt, screenSuffix]
    · cases scr <;> simp [Display.format, hostOpt, screenSuffix, if_neg hhost]

/-- Witness for the amended claim C2 at the concrete address
`h:10.20`. -/
theorem C2_roundtrip_canonical_witness :
    Display.from_str (['h'] ++ ':' :: (natDecimal 10 ++ screenSuffix (some 20))) =
        .ok ⟨hostOpt ['h'], 10, some 20⟩ ∧
      Display.format ⟨hostOpt ['h'], 10, some 20⟩ =
        ['h'] ++ ':' :: (natDecimal 10 ++ screenSuffix (some 20)) :=
  C2_roundtrip_canonical ['h'] (by decide) 10 (by omega) (some 20)
    (by intro m hm; simp at hm; omega)
